import Mathlib

/-!
Verification development for the sceneweaver scene-composition and
duration-resolution engine.

The definitions below are a shallow embedding of the Python sources:

* `Scene`, `SceneData`, `AudioTrack`, `Transition` embed the scene data
  model (`spec/scene/*.py`).
* `resolveF` and its helpers embed the duration resolver:
  `TemplateScene.resolve_duration` and `CompositeScene.resolve_duration`
  from the sources, with the `BaseScene` top-down steps modelled from the
  specification (the checked-in `base_scene.py` predates the resolver and
  does not contain `resolve_duration` / `_get_fixed_duration`).
  Python's in-place mutation is embedded as state passing: every function
  returns the updated subtree, and an exception is an `Option String`
  carried next to the partially-mutated state.  Durations are embedded as
  exact rationals.
* `renderChildren` embeds the effect-list handling of
  `CompositeScene.render`; `svgProgressPass` embeds the per-frame
  progress loop of `SvgScene.render`; `templatePostApply` embeds the
  post-process effect loop of `TemplateScene.render`.
* `processScene` embeds the cache control flow of
  `VideoGenerator._process_scene`; `cacheConfigOfDict` embeds the cache
  key handling of `ImageScene.from_dict`.
* `imageValidate` embeds `ImageScene.validate`; `videoSpecValidate`
  embeds `VideoSpec.validate`.
* `transformProgress` embeds `AccelDecelEffect.transform_progress` over
  the reals.
-/

namespace Sceneweaver

/-- An audio track: a time shift plus the (externally probed) duration of
the referenced file, from `AudioTrackSpec`. -/
structure AudioTrack where
  shift : ℚ
  trackDuration : ℚ
deriving Repr, DecidableEq

/-- A transition between adjacent scenes, from `BaseTransition`. -/
structure Transition where
  duration : ℚ
  kind : String
deriving Repr, DecidableEq

/-- The per-scene fields the duration resolver reads and writes.
`calculated` embeds the mutable `_calculated_duration` attribute. -/
structure SceneData where
  id : String
  duration : Option ℚ
  frames : Option ℕ
  audio : List AudioTrack
  transition : Option Transition
  calculated : Option ℚ
deriving Repr, DecidableEq

/-- The scene tree, restricted to what the duration resolver inspects:
leaf scenes (image, color, svg, ...), `CompositeScene` with its owned
children, and `TemplateScene` with its `with`-block duration/frames and
the scenes of its internal spec. -/
inductive Scene where
  | leaf : SceneData → Scene
  | composite : SceneData → List Scene → Scene
  | template : SceneData → Option ℚ → Option ℕ → List Scene → Scene

/-- The `SceneData` record stored at the root of a scene. -/
def Scene.dataOf : Scene → SceneData
  | .leaf d => d
  | .composite d _ => d
  | .template d _ _ _ => d

mutual

/-- Height of a scene tree; used as fuel for the resolver. -/
def Scene.depth : Scene → ℕ
  | .leaf _ => 1
  | .composite _ cs => 1 + depthList cs
  | .template _ _ _ cs => 1 + depthList cs

/-- Height of a forest of scenes. -/
def depthList : List Scene → ℕ
  | [] => 0
  | c :: rest => max (Scene.depth c) (depthList rest)

end

/-- Modelled from the spec: the audio-implied duration, "longest
audio-track end time (`shift + track_duration`)", used by the
`BaseScene` duration step 3 that is absent from the checked-in
`base_scene.py`.  Returns `none` when the scene carries no audio. -/
def audioImplied : List AudioTrack → Option ℚ
  | [] => none
  | t :: rest =>
    match audioImplied rest with
    | none => some (t.shift + t.trackDuration)
    | some m => some (max (t.shift + t.trackDuration) m)

/-- Modelled from the spec: `BaseScene._get_fixed_duration` (steps 1-3 of
the duration algorithm: explicit `duration`, then `frames / fps`, then
the audio-implied duration), absent from the checked-in
`base_scene.py`. -/
def SceneData.fixedDuration (d : SceneData) (fps : ℚ) : Option ℚ :=
  match d.duration with
  | some x => some x
  | none =>
    match d.frames with
    | some f => some ((f : ℚ) / fps)
    | none => audioImplied d.audio

/-- `TemplateScene._get_fixed_duration`: a `frames` entry of the `with`
block wins, then a numeric `duration` entry of the `with` block, then the
base behaviour. -/
def templateFixedDuration (d : SceneData) (withDuration : Option ℚ)
    (withFrames : Option ℕ) (fps : ℚ) : Option ℚ :=
  match withFrames with
  | some f => some ((f : ℚ) / fps)
  | none =>
    match withDuration with
    | some x => some x
    | none => d.fixedDuration fps

/-- Modelled from the spec: `BaseScene.resolve_duration` (top-down steps
1-5: a scene whose duration is already set is left untouched; otherwise a
fixed duration, then the supplied context, then a hard "relative duration
with no context" error naming the scene id), absent from the checked-in
`base_scene.py`. -/
def baseResolve (d : SceneData) (fixed ctx : Option ℚ) :
    SceneData × Option String :=
  if d.calculated.isSome then (d, none)
  else
    match fixed with
    | some v => ({ d with calculated := some v }, none)
    | none =>
      match ctx with
      | some v => ({ d with calculated := some v }, none)
      | none =>
        (d, some ("Scene '" ++ d.id ++
          "' has a relative duration, but no context duration is available."))

/-- The `is_sequence` test of `TemplateScene.resolve_duration`, inverted:
`some (cd, ccs)` exactly when the internal scenes are one single
`CompositeScene` (whose data is `cd` and whose members are `ccs`), the
case the source treats as a layered composition instead of a sequence. -/
def singleCompositeParts : List Scene → Option (SceneData × List Scene)
  | [Scene.composite cd ccs] => some (cd, ccs)
  | _ => none

/-- The transition duration a scene contributes when it declares a
transition (`child.transition.duration`), and `0` otherwise. -/
def transDur (s : Scene) : ℚ :=
  match s.dataOf.transition with
  | some t => t.duration
  | none => 0

/-- Total of the transition durations of every child that declares a
transition and is not the last child, as accumulated by the sequence
aggregation loop (`if child.transition and i < len(scenes) - 1`). -/
def transSum : List Scene → ℚ
  | [] => 0
  | c :: rest => (if rest.isEmpty then 0 else transDur c) + transSum rest

/-- Result of the bottom-up sequence aggregation loop of
`TemplateScene.resolve_duration` (running totals of child durations and
of the transition durations between consecutive children). -/
structure SeqAgg where
  children : List Scene
  total : ℚ
  transTotal : ℚ
  err : Option String

/-- Result of the bottom-up layered-group aggregation loop of
`TemplateScene.resolve_duration` (running maximum of the composite
members' durations). -/
structure LayerAgg where
  children : List Scene
  maxDur : ℚ
  err : Option String

mutual

/-- Fuel-indexed embedding of `resolve_duration`.  The fuel only bounds
the recursion depth; `Scene.resolveDuration` instantiates it with the
tree height, which `resolveF_mono` shows is always enough.  The result is
the updated scene together with `none` (normal return) or `some msg`
(a raised `ValidationError`, with the mutations performed so far kept, as
in Python). -/
def resolveF (fps : ℚ) : ℕ → Scene → Option ℚ → Scene × Option String
  | 0, s, _ => (s, some ("fuel exhausted"))
  | _ + 1, .leaf d, ctx =>
    let r := baseResolve d (d.fixedDuration fps) ctx
    (.leaf r.1, r.2)
  | n + 1, .composite d cs, ctx =>
    -- `CompositeScene.resolve_duration`: resolve the composite itself,
    -- then every child with the composite's duration as context.
    let r := baseResolve d (d.fixedDuration fps) ctx
    match r.2 with
    | some msg => (.composite r.1 cs, some msg)
    | none =>
      let rl := resolveListF fps n cs r.1.calculated
      (.composite r.1 rl.1, rl.2)
  | n + 1, .template d wd wf cs, ctx =>
    -- `TemplateScene.resolve_duration`.
    if d.calculated.isSome then (.template d wd wf cs, none)
    else
      let r := baseResolve d (templateFixedDuration d wd wf fps) ctx
      match r.2 with
      | none =>
        -- Top-down success: the template's duration is the context for
        -- all internal scenes.  A `ValidationError` raised while
        -- resolving a child is caught by the same `except` and also
        -- falls back to bottom-up aggregation, keeping the mutations.
        let rl := resolveListF fps n cs r.1.calculated
        match rl.2 with
        | none => (.template r.1 wd wf rl.1, none)
        | some _ => templateAggregateF fps n r.1 wd wf rl.1
      | some _ => templateAggregateF fps n d wd wf cs
termination_by n s ctx => (n, 0, 0)

/-- Resolve a list of sibling scenes with a common context, stopping at
the first raised error (later siblings keep their previous state). -/
def resolveListF (fps : ℚ) : ℕ → List Scene → Option ℚ →
    List Scene × Option String
  | _, [], _ => ([], none)
  | n, c :: rest, ctx =>
    let r := resolveF fps n c ctx
    match r.2 with
    | some msg => (r.1 :: rest, some msg)
    | none =>
      let rl := resolveListF fps n rest ctx
      (r.1 :: rl.1, rl.2)
termination_by n l ctx => (n, 1, l.length)

/-- The sequence branch of the bottom-up aggregation: resolve each child
with no context, require a concrete duration, and accumulate the total
duration and the transition durations of all children but the last. -/
def aggSeqF (fps : ℚ) : ℕ → String → List Scene → SeqAgg
  | _, _, [] => ⟨[], 0, 0, none⟩
  | n, tid, c :: rest =>
    let r := resolveF fps n c none
    match r.2 with
    | some msg => ⟨r.1 :: rest, 0, 0, some msg⟩
    | none =>
      match (Scene.dataOf r.1).calculated with
      | none =>
        ⟨r.1 :: rest, 0, 0, some ("In template '" ++ tid ++
          "', child scene '" ++ (Scene.dataOf r.1).id ++
          "' has a relative duration, which is not allowed when the " ++
          "template duration is calculated from its children.")⟩
      | some dur =>
        let rl := aggSeqF fps n tid rest
        let tr : ℚ := if rest.isEmpty then 0 else transDur r.1
        ⟨r.1 :: rl.children, dur + rl.total, tr + rl.transTotal, rl.err⟩
termination_by n tid l => (n, 1, l.length)

/-- The layered branch of the bottom-up aggregation: resolve every member
of the single composite child with no context and take the running
maximum of their durations (starting from `0`, as in the source). -/
def aggLayerF (fps : ℚ) : ℕ → List Scene → LayerAgg
  | _, [] => ⟨[], 0, none⟩
  | n, c :: rest =>
    let r := resolveF fps n c none
    match r.2 with
    | some msg => ⟨r.1 :: rest, 0, some msg⟩
    | none =>
      match (Scene.dataOf r.1).calculated with
      | none =>
        ⟨r.1 :: rest, 0, some ("Could not resolve duration for child '" ++
          (Scene.dataOf r.1).id ++ "'")⟩
      | some dur =>
        let rl := aggLayerF fps n rest
        ⟨r.1 :: rl.children, max dur rl.maxDur, rl.err⟩
termination_by n l => (n, 1, l.length)

/-- The bottom-up fallback of `TemplateScene.resolve_duration`: a single
composite child (`not is_sequence` in the source) is aggregated by
maximum, any other children list by sum minus transitions; afterwards
every child is re-resolved with the new duration as context. -/
def templateAggregateF (fps : ℚ) (n : ℕ) (d : SceneData)
    (wd : Option ℚ) (wf : Option ℕ) (cs : List Scene) :
    Scene × Option String :=
  match singleCompositeParts cs with
  | some (cd, ccs) =>
    let r := aggLayerF fps n ccs
    match r.err with
    | some msg => (.template d wd wf [.composite cd r.children], some msg)
    | none =>
      let d2 := { d with calculated := some r.maxDur }
      let rl := resolveListF fps n [.composite cd r.children] d2.calculated
      (.template d2 wd wf rl.1, rl.2)
  | none =>
    let r := aggSeqF fps n d.id cs
    match r.err with
    | some msg => (.template d wd wf r.children, some msg)
    | none =>
      let d2 := { d with calculated := some (r.total - r.transTotal) }
      let rl := resolveListF fps n r.children d2.calculated
      (.template d2 wd wf rl.1, rl.2)
termination_by (n, 2, 0)

end

/-- The duration resolver entry point: `resolve_duration` run with fuel
equal to the height of the tree (shown sufficient by `resolveF_mono`). -/
def Scene.resolveDuration (fps : ℚ) (s : Scene) (ctx : Option ℚ) :
    Scene × Option String :=
  resolveF fps s.depth s ctx

/-! ### Structural lemmas about the resolver -/

@[simp]
theorem depth_leaf (d : SceneData) : (Scene.leaf d).depth = 1 := by
  simp [Scene.depth]

@[simp]
theorem depth_composite (d : SceneData) (cs : List Scene) :
    (Scene.composite d cs).depth = 1 + depthList cs := by
  simp [Scene.depth]

@[simp]
theorem depth_template (d : SceneData) (wd : Option ℚ) (wf : Option ℕ)
    (cs : List Scene) :
    (Scene.template d wd wf cs).depth = 1 + depthList cs := by
  simp [Scene.depth]

@[simp]
theorem depthList_nil : depthList [] = 0 := by
  simp [depthList]

@[simp]
theorem depthList_cons (c : Scene) (l : List Scene) :
    depthList (c :: l) = max c.depth (depthList l) := by
  simp [depthList]

theorem Scene.one_le_depth (s : Scene) : 1 ≤ s.depth := by
  cases s <;> simp

theorem depth_le_depthList {c : Scene} {l : List Scene} (h : c ∈ l) :
    c.depth ≤ depthList l := by
  induction l with
  | nil => cases h
  | cons a l ih =>
    rcases List.mem_cons.mp h with rfl | h
    · simp
    · exact le_trans (ih h) (by simp)

/-- Every branch of the modelled `BaseScene.resolve_duration` only ever
rewrites the `calculated` field. -/
theorem baseResolve_update (d : SceneData) (f c : Option ℚ) :
    ∃ o, (baseResolve d f c).1 = { d with calculated := o } := by
  unfold baseResolve
  by_cases h : d.calculated.isSome
  · exact ⟨d.calculated, by simp [h]⟩
  · cases f with
    | some v => exact ⟨some v, by simp [h]⟩
    | none =>
      cases c with
      | some v => exact ⟨some v, by simp [h]⟩
      | none => exact ⟨d.calculated, by simp [h]⟩

/-- A scene whose duration is already set is left untouched. -/
theorem baseResolve_of_isSome {d : SceneData} (f c : Option ℚ)
    (h : d.calculated.isSome) : baseResolve d f c = (d, none) := by
  simp [baseResolve, h]

/-- A normal return from the base resolver leaves the duration set. -/
theorem baseResolve_ok_isSome {d : SceneData} {f c : Option ℚ}
    (h : (baseResolve d f c).2 = none) :
    ((baseResolve d f c).1).calculated.isSome := by
  unfold baseResolve at *
  by_cases hd : d.calculated.isSome
  · simp [hd]
  · cases f with
    | some v => simp [hd]
    | none =>
      cases c with
      | some v => simp [hd]
      | none => simp [hd] at h

/-- With a context duration at hand the base resolver never raises. -/
theorem baseResolve_ctx_some (d : SceneData) (f : Option ℚ) (v : ℚ) :
    (baseResolve d f (some v)).2 = none := by
  unfold baseResolve
  by_cases hd : d.calculated.isSome
  · simp [hd]
  · cases f with
    | some w => simp [hd]
    | none => simp [hd]

/-- The failure case of the base resolver: no fixed duration and no
context raises the "relative duration" error. -/
theorem baseResolve_err {d : SceneData} (h : d.calculated = none)
    {f : Option ℚ} (hf : f = none) :
    baseResolve d f none =
      (d, some ("Scene '" ++ d.id ++
        "' has a relative duration, but no context duration is available.")) := by
  simp [baseResolve, h, hf]

/-- The aggregation fallback only rewrites the template's `calculated`
field; name, `with`-block parameters and the other fields survive. -/
theorem templateAggregateF_root (fps : ℚ) (n : ℕ) (d : SceneData)
    (wd : Option ℚ) (wf : Option ℕ) (cs : List Scene) :
    ∃ o cs' e, templateAggregateF fps n d wd wf cs =
      (.template { d with calculated := o } wd wf cs', e) := by
  unfold templateAggregateF
  cases hsc : singleCompositeParts cs with
  | some p =>
    obtain ⟨cd, ccs⟩ := p
    simp only [hsc]
    cases herr : (aggLayerF fps n ccs).err with
    | some msg =>
      exact ⟨d.calculated, [.composite cd (aggLayerF fps n ccs).children],
        some msg, by simp [herr]⟩
    | none =>
      exact ⟨some (aggLayerF fps n ccs).maxDur,
        (resolveListF fps n [.composite cd (aggLayerF fps n ccs).children]
          (some (aggLayerF fps n ccs).maxDur)).1,
        (resolveListF fps n [.composite cd (aggLayerF fps n ccs).children]
          (some (aggLayerF fps n ccs).maxDur)).2,
        by simp [herr]⟩
  | none =>
    simp only [hsc]
    cases herr : (aggSeqF fps n d.id cs).err with
    | some msg =>
      exact ⟨d.calculated, (aggSeqF fps n d.id cs).children, some msg,
        by simp [herr]⟩
    | none =>
      exact ⟨some ((aggSeqF fps n d.id cs).total -
          (aggSeqF fps n d.id cs).transTotal),
        (resolveListF fps n (aggSeqF fps n d.id cs).children
          (some ((aggSeqF fps n d.id cs).total -
            (aggSeqF fps n d.id cs).transTotal))).1,
        (resolveListF fps n (aggSeqF fps n d.id cs).children
          (some ((aggSeqF fps n d.id cs).total -
            (aggSeqF fps n d.id cs).transTotal))).2,
        by simp [herr]⟩

/-- The resolver only ever rewrites `calculated` fields: the root's
other fields (id, transition, declared duration, ...) are preserved. -/
theorem resolveF_root (fps : ℚ) (n : ℕ) (s : Scene) (ctx : Option ℚ) :
    ∃ o, ((resolveF fps n s ctx).1).dataOf = { s.dataOf with calculated := o } := by
  match n, s with
  | 0, s => exact ⟨s.dataOf.calculated, by simp [resolveF]⟩
  | n + 1, .leaf d =>
    obtain ⟨o, ho⟩ := baseResolve_update d (d.fixedDuration fps) ctx
    exact ⟨o, by simp [resolveF, Scene.dataOf, ho]⟩
  | n + 1, .composite d cs =>
    obtain ⟨o, ho⟩ := baseResolve_update d (d.fixedDuration fps) ctx
    refine ⟨o, ?_⟩
    simp only [resolveF]
    cases he : (baseResolve d (d.fixedDuration fps) ctx).2 <;>
      simp [he, ho, Scene.dataOf]
  | n + 1, .template d wd wf cs =>
    by_cases hc : d.calculated.isSome
    · exact ⟨d.calculated, by simp [resolveF, hc, Scene.dataOf]⟩
    · obtain ⟨o, ho⟩ := baseResolve_update d (templateFixedDuration d wd wf fps) ctx
      simp only [resolveF, hc, Bool.false_eq_true, if_false]
      cases he : (baseResolve d (templateFixedDuration d wd wf fps) ctx).2 with
      | some msg =>
        obtain ⟨o2, cs', e, hagg⟩ := templateAggregateF_root fps n d wd wf cs
        exact ⟨o2, by simp [he, hagg, Scene.dataOf]⟩
      | none =>
        cases hrl : (resolveListF fps n cs
            ((baseResolve d (templateFixedDuration d wd wf fps) ctx).1).calculated).2 with
        | some msg =>
          obtain ⟨o2, cs', e, hagg⟩ := templateAggregateF_root fps n
            ((baseResolve d (templateFixedDuration d wd wf fps) ctx).1) wd wf
            (resolveListF fps n cs
              ((baseResolve d (templateFixedDuration d wd wf fps) ctx).1).calculated).1
          refine ⟨o2, ?_⟩
          simp only [he, hrl, hagg, Scene.dataOf]
          rw [ho]
        | none => exact ⟨o, by simp [he, hrl, ho, Scene.dataOf]⟩

/-- Inversion for the `is_sequence` test: a `some` answer pins down the
children list. -/
theorem singleCompositeParts_some {cs : List Scene} {cd : SceneData}
    {ccs : List Scene} (h : singleCompositeParts cs = some (cd, ccs)) :
    cs = [Scene.composite cd ccs] := by
  match cs with
  | [] => simp [singleCompositeParts] at h
  | [Scene.leaf d] => simp [singleCompositeParts] at h
  | [Scene.template d wd wf l] => simp [singleCompositeParts] at h
  | [Scene.composite cd2 ccs2] =>
    simp only [singleCompositeParts, Option.some.injEq, Prod.mk.injEq] at h
    rw [h.1, h.2]
  | a :: b :: rest => simp [singleCompositeParts] at h

/-! ### Depth preservation -/

theorem resolveListF_depth_of {fps : ℚ} {n : ℕ}
    (h : ∀ s ctx, ((resolveF fps n s ctx).1).depth = s.depth) :
    ∀ l ctx, depthList ((resolveListF fps n l ctx).1) = depthList l := by
  intro l ctx
  induction l with
  | nil => simp [resolveListF]
  | cons c rest ih =>
    simp only [resolveListF]
    cases he : (resolveF fps n c ctx).2 <;> simp [he, h, ih]

theorem aggSeqF_depth_of {fps : ℚ} {n : ℕ}
    (h : ∀ s ctx, ((resolveF fps n s ctx).1).depth = s.depth) :
    ∀ tid l, depthList ((aggSeqF fps n tid l).children) = depthList l := by
  intro tid l
  induction l with
  | nil => simp [aggSeqF]
  | cons c rest ih =>
    simp only [aggSeqF]
    cases he : (resolveF fps n c none).2 with
    | some msg => simp [he, h]
    | none =>
      cases hc : (Scene.dataOf ((resolveF fps n c none).1)).calculated <;>
        simp [he, hc, h, ih]

theorem aggLayerF_depth_of {fps : ℚ} {n : ℕ}
    (h : ∀ s ctx, ((resolveF fps n s ctx).1).depth = s.depth) :
    ∀ l, depthList ((aggLayerF fps n l).children) = depthList l := by
  intro l
  induction l with
  | nil => simp [aggLayerF]
  | cons c rest ih =>
    simp only [aggLayerF]
    cases he : (resolveF fps n c none).2 with
    | some msg => simp [he, h]
    | none =>
      cases hc : (Scene.dataOf ((resolveF fps n c none).1)).calculated <;>
        simp [he, hc, h, ih]

theorem templateAggregateF_depth_of {fps : ℚ} {n : ℕ}
    (h : ∀ s ctx, ((resolveF fps n s ctx).1).depth = s.depth) :
    ∀ d wd wf cs, ((templateAggregateF fps n d wd wf cs).1).depth =
      (Scene.template d wd wf cs).depth := by
  intro d wd wf cs
  unfold templateAggregateF
  cases hsc : singleCompositeParts cs with
  | some p =>
    obtain ⟨cd, ccs⟩ := p
    have hcs := singleCompositeParts_some hsc
    subst hcs
    simp only [hsc]
    cases herr : (aggLayerF fps n ccs).err with
    | some msg => simp [herr, aggLayerF_depth_of h]
    | none => simp [herr, resolveListF_depth_of h, aggLayerF_depth_of h]
  | none =>
    simp only [hsc]
    cases herr : (aggSeqF fps n d.id cs).err with
    | some msg => simp [herr, aggSeqF_depth_of h]
    | none => simp [herr, resolveListF_depth_of h, aggSeqF_depth_of h]

/-- The resolver never changes the structure of the tree: depths are
preserved at every fuel level. -/
theorem resolveF_depth (fps : ℚ) :
    ∀ n s ctx, ((resolveF fps n s ctx).1).depth = s.depth := by
  intro n
  induction n with
  | zero => intro s ctx; simp [resolveF]
  | succ n ih =>
    intro s ctx
    match s with
    | .leaf d => simp [resolveF]
    | .composite d cs =>
      simp only [resolveF]
      cases he : (baseResolve d (d.fixedDuration fps) ctx).2 <;>
        simp [he, resolveListF_depth_of ih]
    | .template d wd wf cs =>
      by_cases hc : d.calculated.isSome
      · simp [resolveF, hc]
      · simp only [resolveF, hc, Bool.false_eq_true, if_false]
        cases he : (baseResolve d (templateFixedDuration d wd wf fps) ctx).2 with
        | some msg => simp [he, templateAggregateF_depth_of ih]
        | none =>
          cases hrl : (resolveListF fps n cs
              ((baseResolve d (templateFixedDuration d wd wf fps) ctx).1).calculated).2 with
          | some msg =>
            simp [he, hrl, templateAggregateF_depth_of ih,
              resolveListF_depth_of ih]
          | none => simp [he, hrl, resolveListF_depth_of ih]

theorem resolveListF_depth (fps : ℚ) (n : ℕ) :
    ∀ l ctx, depthList ((resolveListF fps n l ctx).1) = depthList l :=
  resolveListF_depth_of (resolveF_depth fps n)

/-! ### Fuel monotonicity: tree height is enough fuel -/

theorem resolveListF_mono_of {fps : ℚ} {n : ℕ}
    (h : ∀ s ctx, s.depth ≤ n →
      resolveF fps n s ctx = resolveF fps (n + 1) s ctx) :
    ∀ l ctx, depthList l ≤ n →
      resolveListF fps n l ctx = resolveListF fps (n + 1) l ctx := by
  intro l ctx hl
  induction l with
  | nil => simp [resolveListF]
  | cons c rest ih =>
    simp only [depthList_cons, max_le_iff] at hl
    simp only [resolveListF]
    rw [← h c ctx hl.1]
    cases he : (resolveF fps n c ctx).2 <;> simp [he, ih hl.2]

theorem aggSeqF_mono_of {fps : ℚ} {n : ℕ}
    (h : ∀ s ctx, s.depth ≤ n →
      resolveF fps n s ctx = resolveF fps (n + 1) s ctx) :
    ∀ tid l, depthList l ≤ n →
      aggSeqF fps n tid l = aggSeqF fps (n + 1) tid l := by
  intro tid l hl
  induction l with
  | nil => simp [aggSeqF]
  | cons c rest ih =>
    simp only [depthList_cons, max_le_iff] at hl
    simp only [aggSeqF]
    rw [← h c none hl.1]
    cases he : (resolveF fps n c none).2 with
    | some msg => simp [he]
    | none =>
      cases hc : (Scene.dataOf ((resolveF fps n c none).1)).calculated <;>
        simp [he, hc, ih hl.2]

theorem aggLayerF_mono_of {fps : ℚ} {n : ℕ}
    (h : ∀ s ctx, s.depth ≤ n →
      resolveF fps n s ctx = resolveF fps (n + 1) s ctx) :
    ∀ l, depthList l ≤ n → aggLayerF fps n l = aggLayerF fps (n + 1) l := by
  intro l hl
  induction l with
  | nil => simp [aggLayerF]
  | cons c rest ih =>
    simp only [depthList_cons, max_le_iff] at hl
    simp only [aggLayerF]
    rw [← h c none hl.1]
    cases he : (resolveF fps n c none).2 with
    | some msg => simp [he]
    | none =>
      cases hc : (Scene.dataOf ((resolveF fps n c none).1)).calculated <;>
        simp [he, hc, ih hl.2]

theorem templateAggregateF_mono_of {fps : ℚ} {n : ℕ}
    (h : ∀ s ctx, s.depth ≤ n →
      resolveF fps n s ctx = resolveF fps (n + 1) s ctx) :
    ∀ d wd wf cs, depthList cs ≤ n →
      templateAggregateF fps n d wd wf cs =
        templateAggregateF fps (n + 1) d wd wf cs := by
  intro d wd wf cs hl
  unfold templateAggregateF
  cases hsc : singleCompositeParts cs with
  | some p =>
    obtain ⟨cd, ccs⟩ := p
    have hcs := singleCompositeParts_some hsc
    subst hcs
    simp only [depthList_cons, depth_composite, depthList_nil] at hl
    have hl1 : 1 + depthList ccs ≤ n := le_trans (le_max_left _ _) hl
    have hccs : depthList ccs ≤ n := by omega
    simp only [hsc]
    rw [← aggLayerF_mono_of h ccs hccs]
    cases herr : (aggLayerF fps n ccs).err with
    | some msg => simp [herr]
    | none =>
      have hdch : depthList ((aggLayerF fps n ccs).children) = depthList ccs :=
        aggLayerF_depth_of (resolveF_depth fps n) ccs
      have hmut : depthList [Scene.composite cd (aggLayerF fps n ccs).children] ≤ n := by
        simp only [depthList_cons, depth_composite, depthList_nil, Nat.max_zero,
          hdch]
        exact hl1
      simp only [herr]
      rw [← resolveListF_mono_of h _ _ hmut]
  | none =>
    simp only [hsc]
    rw [← aggSeqF_mono_of h d.id cs hl]
    cases herr : (aggSeqF fps n d.id cs).err with
    | some msg => simp [herr]
    | none =>
      have hmut : depthList (aggSeqF fps n d.id cs).children ≤ n := by
        rw [aggSeqF_depth_of (resolveF_depth fps n)]
        exact hl
      simp only [herr]
      rw [← resolveListF_mono_of h _ _ hmut]

/-- One extra unit of fuel beyond the tree height changes nothing. -/
theorem resolveF_mono (fps : ℚ) :
    ∀ n s ctx, s.depth ≤ n →
      resolveF fps n s ctx = resolveF fps (n + 1) s ctx := by
  intro n
  induction n with
  | zero =>
    intro s ctx hs
    have := s.one_le_depth
    omega
  | succ n ih =>
    intro s ctx hs
    match s with
    | .leaf d => simp [resolveF]
    | .composite d cs =>
      simp only [depth_composite] at hs
      have hl : depthList cs ≤ n := by omega
      simp only [resolveF]
      rw [← resolveListF_mono_of ih cs _ hl]
    | .template d wd wf cs =>
      simp only [depth_template] at hs
      have hl : depthList cs ≤ n := by omega
      by_cases hc : d.calculated.isSome
      · simp [resolveF, hc]
      · simp only [resolveF, hc, Bool.false_eq_true, if_false]
        rw [← resolveListF_mono_of ih cs _ hl]
        cases he : (baseResolve d (templateFixedDuration d wd wf fps) ctx).2 with
        | some msg =>
          simp only [he]
          rw [← templateAggregateF_mono_of ih d wd wf cs hl]
        | none =>
          cases hrl : (resolveListF fps n cs
              ((baseResolve d (templateFixedDuration d wd wf fps) ctx).1).calculated).2 with
          | some msg =>
            simp only [he, hrl]
            rw [← templateAggregateF_mono_of ih _ wd wf _
              (by rw [resolveListF_depth fps n]; exact hl)]
          | none => simp [he, hrl]

/-- Any fuel at least the tree height computes `resolveDuration`. -/
theorem resolveF_eq_resolveDuration (fps : ℚ) {n : ℕ} {s : Scene}
    (hn : s.depth ≤ n) (ctx : Option ℚ) :
    resolveF fps n s ctx = s.resolveDuration fps ctx := by
  unfold Scene.resolveDuration
  induction n with
  | zero =>
    have := s.one_le_depth
    omega
  | succ n ih =>
    rcases Nat.lt_or_ge s.depth (n + 1) with hlt | hge
    · rw [← resolveF_mono fps n s ctx (by omega), ih (by omega)]
    · have : s.depth = n + 1 := by omega
      rw [this]

/-! ### A context duration makes resolution total -/

theorem resolveListF_noerr_of {fps : ℚ} {n : ℕ}
    (h : ∀ s ctx, s.depth ≤ n → ctx.isSome →
      (resolveF fps n s ctx).2 = none) :
    ∀ l ctx, depthList l ≤ n → ctx.isSome →
      (resolveListF fps n l ctx).2 = none := by
  intro l ctx hl hctx
  induction l with
  | nil => simp [resolveListF]
  | cons c rest ih =>
    simp only [depthList_cons, max_le_iff] at hl
    simp only [resolveListF]
    have hc := h c ctx hl.1 hctx
    simp [hc, ih hl.2]

/-- Step 4 of the duration algorithm: once a parent supplies a context
duration, resolution below it can no longer fail, and the scene ends up
with its duration set. -/
theorem resolveF_noerr (fps : ℚ) :
    ∀ n s ctx, s.depth ≤ n → ctx.isSome →
      (resolveF fps n s ctx).2 = none ∧
        ((resolveF fps n s ctx).1).dataOf.calculated.isSome := by
  intro n
  induction n with
  | zero =>
    intro s ctx hs
    have := s.one_le_depth
    omega
  | succ n ih =>
    intro s ctx hs hctx
    obtain ⟨v, rfl⟩ := Option.isSome_iff_exists.mp hctx
    match s with
    | .leaf d =>
      refine ⟨?_, ?_⟩ <;>
        simp [resolveF, Scene.dataOf, baseResolve_ctx_some,
          baseResolve_ok_isSome (baseResolve_ctx_some d (d.fixedDuration fps) v)]
    | .composite d cs =>
      simp only [depth_composite] at hs
      have hl : depthList cs ≤ n := by omega
      have hb := baseResolve_ctx_some d (d.fixedDuration fps) v
      have hbs := baseResolve_ok_isSome hb
      simp only [resolveF, hb]
      have hrl := resolveListF_noerr_of (fun s ctx hsd hcx => (ih s ctx hsd hcx).1)
        cs ((baseResolve d (d.fixedDuration fps) (some v)).1).calculated hl hbs
      simp [hrl, Scene.dataOf, hbs]
    | .template d wd wf cs =>
      simp only [depth_template] at hs
      have hl : depthList cs ≤ n := by omega
      by_cases hc : d.calculated.isSome
      · simp [resolveF, hc, Scene.dataOf]
      · have hb := baseResolve_ctx_some d (templateFixedDuration d wd wf fps) v
        have hbs := baseResolve_ok_isSome hb
        simp only [resolveF, hc, Bool.false_eq_true, if_false, hb]
        have hrl := resolveListF_noerr_of (fun s ctx hsd hcx => (ih s ctx hsd hcx).1)
          cs ((baseResolve d (templateFixedDuration d wd wf fps) (some v)).1).calculated
          hl hbs
        simp [hrl, Scene.dataOf, hbs]

/-! ### A normal return leaves the root duration set -/

theorem templateAggregateF_ok_isSome {fps : ℚ} {n : ℕ} {d : SceneData}
    {wd : Option ℚ} {wf : Option ℕ} {cs : List Scene}
    (h : (templateAggregateF fps n d wd wf cs).2 = none) :
    ((templateAggregateF fps n d wd wf cs).1).dataOf.calculated.isSome := by
  unfold templateAggregateF at *
  cases hsc : singleCompositeParts cs with
  | some p =>
    obtain ⟨cd, ccs⟩ := p
    simp only [hsc] at h ⊢
    cases herr : (aggLayerF fps n ccs).err with
    | some msg => simp [herr] at h
    | none => simp [herr, Scene.dataOf]
  | none =>
    simp only [hsc] at h ⊢
    cases herr : (aggSeqF fps n d.id cs).err with
    | some msg => simp [herr] at h
    | none => simp [herr, Scene.dataOf]

theorem resolveF_ok_isSome {fps : ℚ} {n : ℕ} {s : Scene} {ctx : Option ℚ}
    (h : (resolveF fps n s ctx).2 = none) :
    ((resolveF fps n s ctx).1).dataOf.calculated.isSome := by
  match n, s with
  | 0, s => simp [resolveF] at h
  | n + 1, .leaf d =>
    simp only [resolveF] at h ⊢
    exact baseResolve_ok_isSome h
  | n + 1, .composite d cs =>
    simp only [resolveF] at h ⊢
    cases he : (baseResolve d (d.fixedDuration fps) ctx).2 with
    | some msg => simp [he] at h
    | none => simp [Scene.dataOf, baseResolve_ok_isSome he]
  | n + 1, .template d wd wf cs =>
    by_cases hc : d.calculated.isSome
    · simp [resolveF, hc, Scene.dataOf]
    · simp only [resolveF, hc, Bool.false_eq_true, if_false] at h ⊢
      cases he : (baseResolve d (templateFixedDuration d wd wf fps) ctx).2 with
      | some msg =>
        simp only [he] at h ⊢
        exact templateAggregateF_ok_isSome h
      | none =>
        cases hrl : (resolveListF fps n cs
            ((baseResolve d (templateFixedDuration d wd wf fps) ctx).1).calculated).2 with
        | some msg =>
          simp only [he, hrl] at h ⊢
          exact templateAggregateF_ok_isSome h
        | none =>
          simp [he, hrl, Scene.dataOf, baseResolve_ok_isSome he]

/-! ### Idempotence: a resolved tree is a fixed point of the resolver -/

theorem resolveListF_fix_of {fps : ℚ} {n : ℕ}
    (h : ∀ s ctx s', resolveF fps n s ctx = (s', none) →
      resolveF fps n s' ctx = (s', none)) :
    ∀ l ctx l', resolveListF fps n l ctx = (l', none) →
      resolveListF fps n l' ctx = (l', none) := by
  intro l
  induction l with
  | nil =>
    intro ctx l' hl
    simp only [resolveListF] at hl
    obtain ⟨rfl, -⟩ := Prod.mk.injEq .. ▸ hl
    simp [resolveListF]
  | cons c rest ih =>
    intro ctx l' hl
    simp only [resolveListF] at hl
    cases he : (resolveF fps n c ctx).2 with
    | some msg => simp [he] at hl
    | none =>
      simp only [he] at hl
      cases hrl : (resolveListF fps n rest ctx).2 with
      | some msg => simp [hrl] at hl
      | none =>
        have hc : resolveF fps n c ctx = ((resolveF fps n c ctx).1, none) := by
          rw [← he]
        have hr : resolveListF fps n rest ctx =
            ((resolveListF fps n rest ctx).1, none) := by
          rw [← hrl]
        have hl' : l' = (resolveF fps n c ctx).1 :: (resolveListF fps n rest ctx).1 := by
          simp only [hrl] at hl
          exact (Prod.mk.injEq .. ▸ hl).1.symm
        subst hl'
        simp only [resolveListF, h c ctx _ hc, ih ctx _ hr]

/-- A tree returned by a successful run of the resolver is a fixed point:
resolving it again, under any context, returns it unchanged and without
an error. -/
theorem resolveF_fix (fps : ℚ) :
    ∀ n s ctx s', resolveF fps n s ctx = (s', none) →
      ∀ ctx2, resolveF fps n s' ctx2 = (s', none) := by
  intro n
  induction n with
  | zero =>
    intro s ctx s' hrun
    simp [resolveF] at hrun
  | succ n ih =>
    intro s ctx s' hrun ctx2
    have hsome : s'.dataOf.calculated.isSome := by
      have := @resolveF_ok_isSome fps (n + 1) s ctx (by rw [hrun])
      rwa [hrun] at this
    match s with
    | .leaf d =>
      simp only [resolveF] at hrun
      obtain ⟨h1, h2⟩ := Prod.mk.injEq .. ▸ hrun
      subst h1
      simp [resolveF, Scene.dataOf,
        baseResolve_of_isSome _ _ (by simpa [Scene.dataOf] using hsome)]
    | .composite d cs =>
      simp only [resolveF] at hrun
      cases he : (baseResolve d (d.fixedDuration fps) ctx).2 with
      | some msg => simp [he] at hrun
      | none =>
        simp only [he] at hrun
        cases hrl : (resolveListF fps n cs
            ((baseResolve d (d.fixedDuration fps) ctx).1).calculated).2 with
        | some msg => simp [hrl] at hrun
        | none =>
          simp only [hrl] at hrun
          obtain ⟨h1, -⟩ := Prod.mk.injEq .. ▸ hrun
          subst h1
          have hroot : ((baseResolve d (d.fixedDuration fps) ctx).1).calculated.isSome :=
            baseResolve_ok_isSome he
          have hfixlist := resolveListF_fix_of (fun s ctx s' hr => ih s ctx s' hr ctx)
          simp only [resolveF, Scene.dataOf]
          rw [baseResolve_of_isSome _ _ hroot]
          have hlist : resolveListF fps n cs
              ((baseResolve d (d.fixedDuration fps) ctx).1).calculated =
              ((resolveListF fps n cs
                ((baseResolve d (d.fixedDuration fps) ctx).1).calculated).1, none) := by
            rw [← hrl]
          have := resolveListF_fix_of
            (fun sx cx sx' hr => ih sx cx sx' hr cx) _ _ _ hlist
          simp [this]
    | .template d wd wf cs =>
      by_cases hc : d.calculated.isSome
      · simp only [resolveF, hc, if_true] at hrun
        obtain ⟨h1, -⟩ := Prod.mk.injEq .. ▸ hrun
        subst h1
        simp [resolveF, hc]
      · -- The first run went below the guard; whichever branch returned,
        -- the result is a template whose duration is set, so the second
        -- run returns at the guard.
        simp only [resolveF, hc, Bool.false_eq_true, if_false] at hrun
        have guard_done : ∀ (d2 : SceneData) (cs2 : List Scene),
            s' = .template d2 wd wf cs2 →
            resolveF fps (n + 1) s' ctx2 = (s', none) := by
          intro d2 cs2 hs'
          have hd2 : d2.calculated.isSome := by
            rw [hs'] at hsome
            simpa [Scene.dataOf] using hsome
          rw [hs']
          simp [resolveF, hd2]
        cases he : (baseResolve d (templateFixedDuration d wd wf fps) ctx).2 with
        | some msg =>
          simp only [he] at hrun
          obtain ⟨o, cs2, e, hagg⟩ := templateAggregateF_root fps n d wd wf cs
          rw [hagg] at hrun
          exact guard_done _ cs2 (Prod.mk.injEq .. ▸ hrun).1.symm
        | none =>
          simp only [he] at hrun
          cases hrl : (resolveListF fps n cs
              ((baseResolve d (templateFixedDuration d wd wf fps) ctx).1).calculated).2 with
          | some msg =>
            simp only [hrl] at hrun
            obtain ⟨o, cs2, e, hagg⟩ := templateAggregateF_root fps n
              ((baseResolve d (templateFixedDuration d wd wf fps) ctx).1) wd wf
              ((resolveListF fps n cs
                ((baseResolve d (templateFixedDuration d wd wf fps) ctx).1).calculated).1)
            rw [hagg] at hrun
            exact guard_done _ cs2 (Prod.mk.injEq .. ▸ hrun).1.symm
          | none =>
            simp only [hrl] at hrun
            exact guard_done _ _ (Prod.mk.injEq .. ▸ hrun).1.symm


/-! ### Computing the bottom-up aggregations -/

/-- Resolution preserves the transition a child declares. -/
theorem resolveF_transDur (fps : ℚ) (n : ℕ) (c : Scene) (ctx : Option ℚ) :
    transDur ((resolveF fps n c ctx).1) = transDur c := by
  obtain ⟨o, ho⟩ := resolveF_root fps n c ctx
  simp [transDur, ho]

/-- A child "resolves to a concrete duration with `context_duration =
None`": the call returns normally and the child ends up with that
duration. -/
def resolvesTo (fps : ℚ) (c : Scene) (dur : ℚ) : Prop :=
  (Scene.resolveDuration fps c none).2 = none ∧
    ((Scene.resolveDuration fps c none).1).dataOf.calculated = some dur

/-- When every child of a sequence resolves without context, the sequence
aggregation returns the sum of the durations minus the transition
durations of all children but the last, and raises nothing. -/
theorem aggSeqF_spec (fps : ℚ) {n : ℕ} (tid : String) :
    ∀ {cs : List Scene} {ds : List ℚ}, depthList cs ≤ n →
      List.Forall₂ (resolvesTo fps) cs ds →
      ∃ cs', aggSeqF fps n tid cs = ⟨cs', ds.sum, transSum cs, none⟩ := by
  intro cs ds hn hf
  induction hf with
  | nil => exact ⟨[], by simp [aggSeqF, transSum]⟩
  | @cons a b l1 l2 hab hrest ih =>
    simp only [depthList_cons, max_le_iff] at hn
    have heq : resolveF fps n a none = Scene.resolveDuration fps a none :=
      resolveF_eq_resolveDuration fps hn.1 none
    obtain ⟨h2, h3⟩ := hab
    obtain ⟨cs', hcs'⟩ := ih hn.2
    refine ⟨(Scene.resolveDuration fps a none).1 :: cs', ?_⟩
    have htr : transDur ((Scene.resolveDuration fps a none).1) = transDur a := by
      rw [← heq]
      exact resolveF_transDur fps n a none
    simp only [aggSeqF, heq, h2, h3, hcs', htr, transSum]
    simp [List.sum_cons]

/-- When every member of the layered group resolves without context, the
layer aggregation returns the running maximum (from `0`) of the member
durations, and raises nothing. -/
theorem aggLayerF_spec (fps : ℚ) {n : ℕ} :
    ∀ {cs : List Scene} {ds : List ℚ}, depthList cs ≤ n →
      List.Forall₂ (resolvesTo fps) cs ds →
      ∃ cs', aggLayerF fps n cs = ⟨cs', ds.foldr max 0, none⟩ := by
  intro cs ds hn hf
  induction hf with
  | nil => exact ⟨[], by simp [aggLayerF]⟩
  | @cons a b l1 l2 hab hrest ih =>
    simp only [depthList_cons, max_le_iff] at hn
    have heq : resolveF fps n a none = Scene.resolveDuration fps a none :=
      resolveF_eq_resolveDuration fps hn.1 none
    obtain ⟨h2, h3⟩ := hab
    obtain ⟨cs', hcs'⟩ := ih hn.2
    exact ⟨(Scene.resolveDuration fps a none).1 :: cs',
      by simp [aggLayerF, heq, h2, h3, hcs']⟩

theorem foldr_max_le {l : List ℚ} {M : ℚ} (h : ∀ x ∈ l, x ≤ M)
    (h0 : 0 ≤ M) : l.foldr max 0 ≤ M := by
  induction l with
  | nil => simpa using h0
  | cons a l ih =>
    simp only [List.foldr_cons, max_le_iff]
    exact ⟨h a (by simp), ih (fun x hx => h x (by simp [hx]))⟩

/-- The running maximum from `0` is the maximum, as long as the maximum
is nonnegative. -/
theorem foldr_max_eq {ds : List ℚ} {M : ℚ} (hM : M ∈ ds)
    (hub : ∀ x ∈ ds, x ≤ M) (h0 : 0 ≤ M) : ds.foldr max 0 = M := by
  induction ds with
  | nil => cases hM
  | cons a l ih =>
    rcases List.mem_cons.mp hM with rfl | hM'
    · simp only [List.foldr_cons]
      exact max_eq_left (foldr_max_le (fun x hx => hub x (by simp [hx])) h0)
    · have ha : a ≤ M := hub a (by simp)
      have hl : l.foldr max 0 = M := ih hM' (fun x hx => hub x (by simp [hx]))
      simp [hl, ha, max_eq_right]

/-- A child that fails to resolve without context makes the sequence
aggregation raise. -/
theorem aggSeqF_err (fps : ℚ) {n : ℕ} (tid : String) :
    ∀ cs : List Scene, depthList cs ≤ n →
      (∃ c ∈ cs, (Scene.resolveDuration fps c none).2 ≠ none) →
      (aggSeqF fps n tid cs).err.isSome := by
  intro cs
  induction cs with
  | nil =>
    rintro - ⟨c, hc, -⟩
    cases hc
  | cons c rest ih =>
    rintro hn ⟨x, hx, hxe⟩
    simp only [depthList_cons, max_le_iff] at hn
    have heq : resolveF fps n c none = Scene.resolveDuration fps c none :=
      resolveF_eq_resolveDuration fps hn.1 none
    cases hres : (Scene.resolveDuration fps c none).2 with
    | some msg => simp [aggSeqF, heq, hres]
    | none =>
      have hset : ((Scene.resolveDuration fps c none).1).dataOf.calculated.isSome := by
        unfold Scene.resolveDuration at *
        exact resolveF_ok_isSome hres
      obtain ⟨dur, hdur⟩ := Option.isSome_iff_exists.mp hset
      rcases List.mem_cons.mp hx with rfl | hx'
      · exact absurd hres hxe
      · have hrec := ih hn.2 ⟨x, hx', hxe⟩
        simp [aggSeqF, heq, hres, hdur, hrec]

/-! ### Claims C1-C3 -/

/-- C1: For every Template scene whose top-down resolution (explicit
duration, frames, audio, or context) fails and whose internal spec's
scenes form a sequence (not exactly one child that is a Composite scene),
and each child resolves to a concrete duration with `context_duration =
None`, the template's resolved duration equals the sum of the children's
resolved durations minus the sum of the transition durations of every
child that declares a transition and is not the last child; a child that
cannot resolve without context is a hard error. -/
theorem template_sequence_duration (fps : ℚ) (d : SceneData)
    (wd : Option ℚ) (wf : Option ℕ) (cs : List Scene)
    (hcalc : d.calculated = none)
    (hfix : templateFixedDuration d wd wf fps = none)
    (hseq : singleCompositeParts cs = none) :
    (∀ ds : List ℚ, List.Forall₂ (resolvesTo fps) cs ds →
      ∃ cs', Scene.resolveDuration fps (.template d wd wf cs) none =
        (.template { d with calculated := some (ds.sum - transSum cs) }
          wd wf cs', none))
    ∧ ((∃ c ∈ cs, (Scene.resolveDuration fps c none).2 ≠ none) →
      (Scene.resolveDuration fps (.template d wd wf cs) none).2.isSome) := by
  have hdl : (Scene.template d wd wf cs).depth = depthList cs + 1 := by
    simp [Nat.add_comm]
  have hb : baseResolve d (templateFixedDuration d wd wf fps) none =
      (d, some ("Scene '" ++ d.id ++
        "' has a relative duration, but no context duration is available.")) :=
    baseResolve_err hcalc hfix
  constructor
  · intro ds hf
    obtain ⟨cs', hagg⟩ := aggSeqF_spec fps d.id (le_refl (depthList cs)) hf
    have hdcs' : depthList cs' = depthList cs := by
      have hp := aggSeqF_depth_of (resolveF_depth fps (depthList cs)) d.id cs
      rw [hagg] at hp
      simpa using hp
    have hnoerr := resolveListF_noerr_of
      (fun s ctx hs hc => (resolveF_noerr fps (depthList cs) s ctx hs hc).1)
      cs' (some (ds.sum - transSum cs)) (by simp [hdcs']) (by simp)
    refine ⟨(resolveListF fps (depthList cs) cs'
      (some (ds.sum - transSum cs))).1, ?_⟩
    unfold Scene.resolveDuration
    rw [hdl]
    simp only [resolveF, hcalc, Option.isSome_none, Bool.false_eq_true,
      if_false, hb]
    unfold templateAggregateF
    simp only [hseq, hagg, hnoerr]
  · intro hex
    have herr := aggSeqF_err fps d.id cs (le_refl (depthList cs)) hex
    obtain ⟨msg, hmsg⟩ := Option.isSome_iff_exists.mp herr
    unfold Scene.resolveDuration
    rw [hdl]
    simp only [resolveF, hcalc, Option.isSome_none, Bool.false_eq_true,
      if_false, hb]
    unfold templateAggregateF
    simp [hseq, hmsg]

/-- Witness for C1, the spec's own example: child durations 4 and 6 with
a transition of duration 1 between them give a resolved template
duration of 4 + 6 - 1 = 9. -/
theorem template_sequence_duration_witness :
    ∃ cs', Scene.resolveDuration 30
        (.template ⟨"t", none, none, [], none, none⟩ none none
          [.leaf ⟨"a", some 4, none, [], some ⟨1, "fade"⟩, none⟩,
           .leaf ⟨"b", some 6, none, [], none, none⟩]) none =
      (.template ⟨"t", none, none, [], none, some 9⟩ none none cs',
        none) := by
  have ha : resolvesTo 30
      (.leaf ⟨"a", some 4, none, [], some ⟨1, "fade"⟩, none⟩) 4 := by
    constructor <;>
      simp [Scene.resolveDuration, Scene.depth, resolveF, baseResolve,
        SceneData.fixedDuration, Scene.dataOf]
  have hbs : resolvesTo 30 (.leaf ⟨"b", some 6, none, [], none, none⟩) 6 := by
    constructor <;>
      simp [Scene.resolveDuration, Scene.depth, resolveF, baseResolve,
        SceneData.fixedDuration, Scene.dataOf]
  have h := (template_sequence_duration 30 ⟨"t", none, none, [], none, none⟩
      none none
      [.leaf ⟨"a", some 4, none, [], some ⟨1, "fade"⟩, none⟩,
       .leaf ⟨"b", some 6, none, [], none, none⟩]
      rfl rfl rfl).1 [4, 6]
      (List.Forall₂.cons ha (List.Forall₂.cons hbs List.Forall₂.nil))
  obtain ⟨cs', hcs'⟩ := h
  refine ⟨cs', ?_⟩
  rw [hcs']
  norm_num [transSum, transDur, Scene.dataOf]

/-- C2: For every Template scene whose top-down resolution fails and
whose internal spec consists of exactly one Composite scene, the
template's resolved duration equals the maximum of the resolved durations
of that composite's children, each resolved with `context_duration =
None` (the maximum being nonnegative, which every real duration is) —
the max, not the sum. -/
theorem template_layered_duration (fps : ℚ) (d : SceneData)
    (wd : Option ℚ) (wf : Option ℕ) (cd : SceneData) (ccs : List Scene)
    (ds : List ℚ) (M : ℚ)
    (hcalc : d.calculated = none)
    (hfix : templateFixedDuration d wd wf fps = none)
    (hkids : List.Forall₂ (resolvesTo fps) ccs ds)
    (hM : M ∈ ds) (hub : ∀ x ∈ ds, x ≤ M) (h0 : 0 ≤ M) :
    ∃ cs', Scene.resolveDuration fps
        (.template d wd wf [.composite cd ccs]) none =
      (.template { d with calculated := some M } wd wf cs', none) := by
  have hb : baseResolve d (templateFixedDuration d wd wf fps) none =
      (d, some ("Scene '" ++ d.id ++
        "' has a relative duration, but no context duration is available.")) :=
    baseResolve_err hcalc hfix
  have hdl : (Scene.template d wd wf [.composite cd ccs]).depth =
      depthList [Scene.composite cd ccs] + 1 := by
    simp [Nat.add_comm]
  have hsc : singleCompositeParts [Scene.composite cd ccs] = some (cd, ccs) := by
    simp [singleCompositeParts]
  have hle : depthList ccs ≤ depthList [Scene.composite cd ccs] := by
    simp
  obtain ⟨ccs', hagg⟩ := aggLayerF_spec fps hle hkids
  rw [foldr_max_eq hM hub h0] at hagg
  have hdccs' : depthList ccs' = depthList ccs := by
    have hp := aggLayerF_depth_of
      (resolveF_depth fps (depthList [Scene.composite cd ccs])) ccs
    rw [hagg] at hp
    simpa using hp
  have hnoerr := resolveListF_noerr_of
    (fun s ctx hs hc =>
      (resolveF_noerr fps (depthList [Scene.composite cd ccs]) s ctx hs hc).1)
    [Scene.composite cd ccs'] (some M) (by simp [hdccs']) (by simp)
  refine ⟨(resolveListF fps (depthList [Scene.composite cd ccs])
    [Scene.composite cd ccs'] (some M)).1, ?_⟩
  unfold Scene.resolveDuration
  rw [hdl]
  simp only [resolveF, hcalc, Option.isSome_none, Bool.false_eq_true,
    if_false, hb]
  unfold templateAggregateF
  simp only [hsc, hagg, hnoerr]

/-- Witness for C2: a template whose internal spec is one composite with
member durations 4 and 6 resolves to 6, the max, not the sum 10. -/
theorem template_layered_duration_witness :
    ∃ cs', Scene.resolveDuration 30
        (.template ⟨"t", none, none, [], none, none⟩ none none
          [.composite ⟨"g", none, none, [], none, none⟩
            [.leaf ⟨"a", some 4, none, [], none, none⟩,
             .leaf ⟨"b", some 6, none, [], none, none⟩]]) none =
      (.template ⟨"t", none, none, [], none, some 6⟩ none none cs',
        none) := by
  have ha : resolvesTo 30 (.leaf ⟨"a", some 4, none, [], none, none⟩) 4 := by
    constructor <;>
      simp [Scene.resolveDuration, Scene.depth, resolveF, baseResolve,
        SceneData.fixedDuration, Scene.dataOf]
  have hbs : resolvesTo 30 (.leaf ⟨"b", some 6, none, [], none, none⟩) 6 := by
    constructor <;>
      simp [Scene.resolveDuration, Scene.depth, resolveF, baseResolve,
        SceneData.fixedDuration, Scene.dataOf]
  exact template_layered_duration 30 ⟨"t", none, none, [], none, none⟩
    none none ⟨"g", none, none, [], none, none⟩
    [.leaf ⟨"a", some 4, none, [], none, none⟩,
     .leaf ⟨"b", some 6, none, [], none, none⟩]
    [4, 6] 6 rfl rfl
    (List.Forall₂.cons ha (List.Forall₂.cons hbs List.Forall₂.nil))
    (by simp) (by decide) (by decide)

/-- C3: `resolve_duration` is idempotent.  A tree returned by a
successful resolution is returned unchanged, without raising and without
any further writes, by a second invocation under any context; in
particular its resolved duration, which was set exactly once, is left
unchanged. -/
theorem resolve_duration_idempotent (fps : ℚ) (s : Scene)
    (ctx : Option ℚ) (s' : Scene)
    (h : Scene.resolveDuration fps s ctx = (s', none)) (ctx2 : Option ℚ) :
    Scene.resolveDuration fps s' ctx2 = (s', none) := by
  have hs' : s' = (resolveF fps s.depth s ctx).1 := by
    unfold Scene.resolveDuration at h
    rw [h]
  have hdep : s'.depth = s.depth := by
    rw [hs']
    exact resolveF_depth fps s.depth s ctx
  unfold Scene.resolveDuration at h ⊢
  rw [hdep]
  exact resolveF_fix fps s.depth s ctx s' h ctx2

/-- Witness for C3: re-resolving an already-resolved leaf under a fresh
context duration of 7 is a no-op and does not raise. -/
theorem resolve_duration_idempotent_witness :
    Scene.resolveDuration 30
        (.leaf ⟨"a", some 5, none, [], none, some 5⟩) (some 7) =
      (.leaf ⟨"a", some 5, none, [], none, some 5⟩, none) :=
  resolve_duration_idempotent 30 (.leaf ⟨"a", some 5, none, [], none, none⟩)
    none (.leaf ⟨"a", some 5, none, [], none, some 5⟩)
    (by simp [Scene.resolveDuration, Scene.depth, resolveF, baseResolve,
      SceneData.fixedDuration])
    (some 7)

/-! ### C8: the AccelDecel easing -/

/-- `AccelDecelEffect.transform_progress`, translated from
`spec/effect/accel_decel_effect.py` over the reals.  The constructor
clamps `min_speed` into `[0, 1]`; `abruptness == 0` returns the progress
unchanged; otherwise the eased curve is blended with linear progress. -/
noncomputable def transformProgress (abruptness minSpeed t : ℝ) : ℝ :=
  let ms := min 1 (max 0 minSpeed)
  if abruptness = 0 then t
  else
    let p := |abruptness|
    let eased : ℝ :=
      if abruptness > 0 then
        if t < 1 / 2 then (2 * t) ^ p / 2 else 1 - (-2 * t + 2) ^ p / 2
      else
        if t < 1 / 2 then (1 - (1 - 2 * t) ^ p) / 2
        else (2 * t - 1) ^ p / 2 + 1 / 2
    eased * (1 - ms) + t * ms

/-- The spec's reference easing curve `e` (section 4.4), written from the
spec's words: positive abruptness is slow-fast-slow, negative is
fast-slow-fast, with `p` the magnitude of the abruptness. -/
noncomputable def specEasedCurve (abruptness p t : ℝ) : ℝ :=
  if abruptness > 0 then
    if t < 1 / 2 then (2 * t) ^ p / 2 else 1 - (-2 * t + 2) ^ p / 2
  else
    if t < 1 / 2 then (1 - (1 - 2 * t) ^ p) / 2
    else (2 * t - 1) ^ p / 2 + 1 / 2

/-- The spec's reference transform: identity at `abruptness == 0`, and
otherwise the blend `e * (1 - min_speed) + t * min_speed` with
`min_speed` clamped into `[0, 1]`. -/
noncomputable def specTransform (abruptness minSpeed t : ℝ) : ℝ :=
  let ms := min 1 (max 0 minSpeed)
  if abruptness = 0 then t
  else specEasedCurve abruptness |abruptness| t * (1 - ms) + t * ms

/-- C8: `AccelDecelEffect.transform_progress` equals the spec's reference
easing (blend of the stated piecewise curve with linear motion, identity
at `abruptness == 0`); for `abruptness = 1.5, min_speed = 0` it maps 0 to
0, 0.5 to 0.5 and 1 to 1, and for `min_speed = 1` it is the identity. -/
theorem accel_decel_transform_progress :
    (∀ a m t : ℝ, transformProgress a m t = specTransform a m t)
    ∧ transformProgress (3 / 2) 0 0 = 0
    ∧ transformProgress (3 / 2) 0 (1 / 2) = 1 / 2
    ∧ transformProgress (3 / 2) 0 1 = 1
    ∧ (∀ t : ℝ, transformProgress (3 / 2) 1 t = t) := by
  have h32p : (0 : ℝ) < 3 / 2 := by norm_num
  have habs : |(3 / 2 : ℝ)| = 3 / 2 := by
    rw [abs_of_pos h32p]
  refine ⟨?_, ?_, ?_, ?_, ?_⟩
  · intro a m t
    simp only [transformProgress, specTransform, specEasedCurve]
  · simp only [transformProgress, habs]
    norm_num
  · simp only [transformProgress, habs]
    norm_num
  · simp only [transformProgress, habs]
    norm_num
  · intro t
    simp only [transformProgress, habs]
    norm_num

/-! ### C4: effect-list handling in `CompositeScene.render` -/

/-- An effect as the compositing engine sees it: an identity tag plus the
`has_progress_transform` flag. -/
structure REffect where
  tag : ℕ
  hasProgressTransform : Bool
deriving Repr, DecidableEq

/-- A child of a composite, restricted to what the effect handling of
`CompositeScene.render` reads and writes: its `composite_mode`, its
stored effects list, and an oracle for what the external renderer does
when this scene is rendered (raise an exception, or return `None`
instead of a clip). -/
structure RChild where
  id : String
  mode : String
  effects : List REffect
  renderRaises : Bool
  renderNone : Bool
deriving Repr, DecidableEq

/-- One renderer invocation: the scene's id and the stored effects list
of that scene at the moment of the call (what `render` reads through
`self.effects`). -/
structure RCall where
  id : String
  seen : List REffect
deriving Repr, DecidableEq

mutual

/-- The group walk of `CompositeScene.render` (lines 71-168), restricted
to effect-list handling.  The argument carries `some progress` while the
inner mask loop is consuming non-`layer` members of a group whose base
carried the progress effects `progress`, and `none` when the next child
must start a new group.  For a mask member the source temporarily
reassigns `m.effects = m.effects + progress_effects`, renders, and then
restores the original list; there is no `try/finally`, so when the
nested render raises, the reassigned list stays in place - which this
embedding reproduces.  Returns the updated children, the renderer call
log, and the raised error if any. -/
def renderStep : Option (List REffect) → List RChild →
    List RChild × List RCall × Option String
  | _, [] => ([], [], none)
  | some progress, m :: rest =>
    if m.mode ≠ "layer" then
      -- inner mask loop body (lines 104-119)
      let seen := m.effects ++ progress
      if m.renderRaises then
        ({ m with effects := seen } :: rest, [⟨m.id, seen⟩],
          some ("render raised in scene '" ++ m.id ++ "'"))
      else
        -- restore: the stored list is `seen` during the call and the
        -- original list afterwards.
        let r := renderStep (some progress) rest
        (m :: r.1, ⟨m.id, seen⟩ :: r.2.1, r.2.2)
    else
      -- next `layer` child: the group ends, a new one starts (i = j).
      renderBase m rest
  | none, m :: rest => renderBase m rest
termination_by ctx l => (l.length, 0)

/-- Start of a group (lines 74-96): the child must be `layer`-mode; its
effects are split into progress and other effects; it renders with its
own stored list; a `None` clip skips to the next child as a new group
start. -/
def renderBase (s : RChild) (rest : List RChild) :
    List RChild × List RCall × Option String :=
  if s.mode ≠ "layer" then
    (s :: rest, [],
      some ("A composition group must start with a 'layer' scene. Scene '"
        ++ s.id ++ "' has mode '" ++ s.mode ++ "'."))
  else if s.renderRaises then
    (s :: rest, [⟨s.id, s.effects⟩],
      some ("render raised in scene '" ++ s.id ++ "'"))
  else if s.renderNone then
    let r := renderStep none rest
    (s :: r.1, ⟨s.id, s.effects⟩ :: r.2.1, r.2.2)
  else
    let r := renderStep
      (some (s.effects.filter (fun e => e.hasProgressTransform))) rest
    (s :: r.1, ⟨s.id, s.effects⟩ :: r.2.1, r.2.2)
termination_by (rest.length, 1)

end

/-- `CompositeScene.render`'s walk over its children list. -/
def compositeRenderEffects (cs : List RChild) :
    List RChild × List RCall × Option String :=
  renderStep none cs

/-- After a renderer pass in which no nested render raises, every
child's stored effects list (and every other stored field) is exactly
what it was before the pass. -/
theorem renderStep_restore :
    ∀ (cs : List RChild) (ctx : Option (List REffect)),
      (renderStep ctx cs).2.2 = none → (renderStep ctx cs).1 = cs := by
  intro cs
  induction cs with
  | nil => intro ctx h; simp [renderStep]
  | cons m rest ih =>
    intro ctx h
    have hbase : (renderBase m rest).2.2 = none →
        (renderBase m rest).1 = m :: rest := by
      intro hb
      unfold renderBase at *
      by_cases h1 : m.mode = "layer"
      · cases h2 : m.renderRaises with
        | true => simp [h1, h2] at hb
        | false =>
          cases h3 : m.renderNone with
          | true =>
            simp only [h1, h2, h3] at hb ⊢
            simp at hb ⊢
            exact ih none hb
          | false =>
            simp only [h1, h2, h3] at hb ⊢
            simp at hb ⊢
            exact ih _ hb
      · simp [h1] at hb
    match ctx with
    | none =>
      simp only [renderStep] at h ⊢
      exact hbase h
    | some p =>
      by_cases hm : m.mode = "layer"
      · simp only [renderStep, hm] at h ⊢
        simp at h ⊢
        exact hbase (by simpa using h)
      · cases h2 : m.renderRaises with
        | true => simp [renderStep, hm, h2] at h
        | false =>
          simp only [renderStep, hm, h2] at h ⊢
          simp [hm] at h ⊢
          exact ih _ h

/-- C4 (amended): in `CompositeScene.render` the effective effect list
the mask renderer sees is exactly `m.effects ++ progress_effects`, but it
is produced by temporarily reassigning `m`'s stored effects list, not as
a pure temporary: during the nested render the stored list is the
concatenation; after a pass in which every render returns the stored
lists are restored; and when a nested mask render raises, the
concatenated list stays stored on the scene (there is no `try/finally`). -/
theorem composite_render_effects_spec :
    (∀ (ctx : Option (List REffect)) (cs : List RChild),
      (renderStep ctx cs).2.2 = none → (renderStep ctx cs).1 = cs)
    ∧ (∀ (p : List REffect) (m : RChild) (rest : List RChild),
        m.mode ≠ "layer" →
        ((renderStep (some p) (m :: rest)).2.1).head? =
          some ⟨m.id, m.effects ++ p⟩)
    ∧ (∀ (p : List REffect) (m : RChild) (rest : List RChild),
        m.mode ≠ "layer" → m.renderRaises = true →
        (renderStep (some p) (m :: rest)).1 =
          { m with effects := m.effects ++ p } :: rest) := by
  refine ⟨fun ctx cs => renderStep_restore cs ctx, ?_, ?_⟩
  · intro p m rest hm
    by_cases h2 : m.renderRaises <;>
      simp [renderStep, hm, h2]
  · intro p m rest hm h2
    simp [renderStep, hm, h2]

/-- Witness for the amended C4: a mask member with stored effects
`[2]` under a base progress list `[1]` is rendered with the stored list
temporarily equal to `[2] ++ [1]`. -/
theorem composite_render_effects_spec_witness :
    ((renderStep (some [⟨1, true⟩])
        [⟨"m", "mask", [⟨2, false⟩], false, false⟩]).2.1).head? =
      some ⟨"m", [⟨2, false⟩] ++ [⟨1, true⟩]⟩ :=
  composite_render_effects_spec.2.1 [⟨1, true⟩]
    ⟨"m", "mask", [⟨2, false⟩], false, false⟩ [] (by decide)

/-- Counterexample to C4 as stated: with one progress effect on the base
layer and a mask member whose nested render raises, the mask's stored
effects list after `render` is the concatenation, not its value before
the call - the stored list is mutated in place and the restore is
skipped on the exception path. -/
theorem composite_render_mask_mutation_counterexample :
    (compositeRenderEffects
        [⟨"base", "layer", [⟨1, true⟩], false, false⟩,
         ⟨"m", "mask", [⟨2, false⟩], true, false⟩]).1 =
      [⟨"base", "layer", [⟨1, true⟩], false, false⟩,
       ⟨"m", "mask", [⟨2, false⟩, ⟨1, true⟩], true, false⟩] ∧
    ([⟨2, false⟩, ⟨1, true⟩] : List REffect) ≠ [⟨2, false⟩] := by
  constructor
  · simp [compositeRenderEffects, renderStep, renderBase]
  · decide

/-! ### C6: progress-transform consumption -/

/-- An effect as the per-frame renderer sees it: an identity tag, its
`transform_progress` function, and the `is_consumed` flag.  Every effect
has a `transform_progress` (the base class returns the progress
unchanged; only `AccelDecelEffect` overrides it). -/
structure FEffect where
  tag : ℕ
  transform : ℚ → ℚ
  isConsumed : Bool

/-- The per-frame progress loop of `SvgScene.render` (lines 178-184):
every effect in the scene's list has `transform_progress` invoked on the
running progress value; an effect is flagged `is_consumed` only when the
value it returns differs from the value it received.  Returns the final
progress, the updated effects, and the list of invoked tags. -/
def svgProgressPass : ℚ → List FEffect → ℚ × List FEffect × List ℕ
  | p, [] => (p, [], [])
  | p, e :: es =>
    let p2 := e.transform p
    let e2 := if p2 ≠ p then { e with isConsumed := true } else e
    let r := svgProgressPass p2 es
    (r.1, e2 :: r.2.1, e.tag :: r.2.2)

/-- The post-process effect loop of `TemplateScene.render` (lines
323-331): every effect with `is_consumed` set is skipped
(`if effect.is_consumed: continue`); the others are applied in order.
Returns the effects that are applied. -/
def templatePostApply (es : List FEffect) : List FEffect :=
  es.filter (fun e => !e.isConsumed)

/-- C6 (amended): in one render pass every effect of the scene's list has
`transform_progress` invoked on every frame, but `is_consumed` is set
only for an effect whose invocation returns a value different from the
progress it received - an effect whose transform is the identity (every
non-AccelDecel effect) is invoked yet never flagged; flags are never
cleared; a flagged effect can only arise from an already-flagged one or
from a transform able to change some value; and every effect with
`is_consumed = true` is excluded from the template post-process apply
step. -/
theorem svg_progress_consumed_spec :
    (∀ (p : ℚ) (es : List FEffect),
      (svgProgressPass p es).2.2 = es.map (fun e => e.tag))
    ∧ (∀ (p : ℚ) (es : List FEffect),
      List.Forall₂ (fun e e2 =>
          e2.tag = e.tag ∧ e2.transform = e.transform ∧
          (e.isConsumed = true → e2.isConsumed = true) ∧
          ((∀ q, e.transform q = q) → e2.isConsumed = e.isConsumed) ∧
          (e2.isConsumed = true →
            e.isConsumed = true ∨ ∃ q, e.transform q ≠ q))
        es (svgProgressPass p es).2.1)
    ∧ (∀ (es : List FEffect) (e : FEffect),
      e ∈ templatePostApply es → e.isConsumed = false) := by
  refine ⟨?_, ?_, ?_⟩
  · intro p es
    induction es generalizing p with
    | nil => simp [svgProgressPass]
    | cons e es ih => simp [svgProgressPass, ih]
  · intro p es
    induction es generalizing p with
    | nil => simp [svgProgressPass]
    | cons e es ih =>
      simp only [svgProgressPass]
      refine List.Forall₂.cons ?_ (ih (e.transform p))
      rcases eq_or_ne (e.transform p) p with heq | hne
      · have hif : (if e.transform p ≠ p then
            { e with isConsumed := true } else e) = e := by
          simp [heq]
        rw [hif]
        exact ⟨rfl, rfl, fun h => h, fun _ => rfl, fun hc => Or.inl hc⟩
      · have hif : (if e.transform p ≠ p then
            { e with isConsumed := true } else e) =
            { e with isConsumed := true } := by
          simp [hne]
        rw [hif]
        refine ⟨rfl, rfl, fun _ => rfl, ?_, fun _ => Or.inr ⟨p, hne⟩⟩
        intro hid
        exact absurd (hid p) hne
  · intro es e he
    have := List.of_mem_filter he
    simpa using this

/-- Witness for the amended C6: of two effects, one already consumed and
one not, the template post-apply step applies exactly the unconsumed one.
-/
theorem svg_progress_consumed_spec_witness :
    (⟨2, fun q => q, false⟩ : FEffect).isConsumed = false :=
  svg_progress_consumed_spec.2.2
    [⟨1, fun q => q, true⟩, ⟨2, fun q => q, false⟩]
    ⟨2, fun q => q, false⟩ (by simp [templatePostApply])

/-- Counterexample to C6 as stated: an effect whose `transform_progress`
returns its input unchanged (here the base-class identity transform, as
for Fade/Scroll/Slide/Zoom) is invoked by the per-frame renderer on every
frame, yet its `is_consumed` flag stays `false` - the flag is set only
when the returned value differs, not whenever the transform is invoked. -/
theorem svg_progress_consumed_counterexample :
    ((svgProgressPass 0 [⟨7, fun q => q, false⟩]).2.2 = [7])
    ∧ ((svgProgressPass 0 [⟨7, fun q => q, false⟩]).2.1.map
        (fun e => e.isConsumed)) = [false] := by
  constructor <;> simp [svgProgressPass]

/-! ### C5 and C10: the generator's cache control flow -/

/-- What `VideoGenerator._process_scene` does with the cache manager for
one scene: whether `CacheManager.get` was consulted, whether
`CacheManager.put` was invoked, and whether the scene was rendered. -/
structure CacheEvents where
  getCalled : Bool
  putCalled : Bool
  rendered : Bool
deriving Repr, DecidableEq

/-- The cache control flow of `VideoGenerator._process_scene` (lines
46-107): `use_cache = scene.cache is not None and not force`; `get` is
consulted only under `use_cache`; the scene is rendered unless that
lookup hit; and after a render that produced a clip, `put` is invoked
only under the same `use_cache` flag.  `cache` is the scene's cache
policy, `cacheHit` whether `get` would return a stored clip, and
`renderSome` whether `scene.render` returns a clip rather than `None`. -/
def processScene (force : Bool) (cache : Option (List (String × String)))
    (cacheHit renderSome : Bool) : CacheEvents :=
  let useCache := cache.isSome && !force
  let hit := useCache && cacheHit
  let rendered := !hit
  ⟨useCache, rendered && renderSome && useCache, rendered⟩

/-- C5 (amended): force mode bypasses the cache manager entirely - when
`force` is set neither `get` nor `put` is invoked, whatever the cache
policy (the source guards the `put` with the same
`use_cache = cache is not None and not force` flag as the `get`); a
scene with `cache = None` likewise invokes neither; and a `put` can only
ever happen with a cache policy present and `force` off. -/
theorem force_cache_bypass :
    (∀ (cache : Option (List (String × String))) (hit r : Bool),
      processScene true cache hit r = ⟨false, false, true⟩)
    ∧ (∀ (force hit r : Bool),
      processScene force none hit r = ⟨false, false, true⟩)
    ∧ (∀ (force : Bool) (cache : Option (List (String × String)))
        (hit r : Bool),
      (processScene force cache hit r).putCalled = true →
        cache.isSome = true ∧ force = false ∧ r = true) := by
  refine ⟨?_, ?_, ?_⟩
  · intro cache hit r
    cases cache <;> simp [processScene]
  · intro force hit r
    cases force <;> simp [processScene]
  · intro force cache hit r h
    cases force <;> cases cache <;> cases hit <;> cases r <;>
      simp_all [processScene]

/-- Witness for the amended C5: a cached scene processed without force,
missing the cache and rendering a clip, does invoke `put` - and the
theorem then says the policy was present and force was off. -/
theorem force_cache_bypass_witness :
    (some ([] : List (String × String))).isSome = true ∧
      false = false ∧ true = true :=
  force_cache_bypass.2.2 false (some []) false true (by decide)

/-- Counterexample to C5 as stated: a scene with a cache policy,
processed in force mode, rendering a clip - the claim says `put` is
still invoked, but the source skips the write (`use_cache` is false), so
`putCalled` is `false`, not `true`. -/
theorem force_cache_write_counterexample :
    (processScene true (some []) false true).getCalled = false ∧
    (processScene true (some []) false true).rendered = true ∧
    (processScene true (some []) false true).putCalled = false := by
  refine ⟨rfl, rfl, rfl⟩

/-- The cache key handling of `ImageScene.from_dict` (lines 203-213):
the value found under the `cache` key of the scene dictionary, with
`absent` for a dictionary that has no `cache` key. -/
inductive CacheVal where
  | absent
  | vFalse
  | vTrue
  | vNull
  | vDict (m : List (String × String))
deriving Repr, DecidableEq

/-- The `cache_config` computed by `ImageScene.from_dict`: no key or
`false` disable caching (`None`), `true` and an explicit `null` enable
it with the empty policy mapping, and a mapping is kept as is. -/
def cacheConfigOfDict : CacheVal → Option (List (String × String))
  | .absent => none
  | .vFalse => none
  | .vTrue => some []
  | .vNull => some []
  | .vDict m => some m

/-- C10: caching is opt-in - an image scene dictionary with no `cache`
key or with `cache: false` yields `cache = None` and the generator then
consults neither `get` nor `put` for that scene; `cache: true` and an
explicit `cache: null` yield the empty policy mapping, enabling caching
with defaults. -/
theorem image_cache_opt_in :
    cacheConfigOfDict .absent = none
    ∧ cacheConfigOfDict .vFalse = none
    ∧ cacheConfigOfDict .vTrue = some []
    ∧ cacheConfigOfDict .vNull = some []
    ∧ (∀ force hit r : Bool,
      processScene force (cacheConfigOfDict .absent) hit r =
        ⟨false, false, true⟩)
    ∧ (∀ force hit r : Bool,
      processScene force (cacheConfigOfDict .vFalse) hit r =
        ⟨false, false, true⟩) := by
  refine ⟨rfl, rfl, rfl, rfl, ?_, ?_⟩ <;>
    · intro force hit r
      cases force <;> cases hit <;> cases r <;>
        simp [processScene, cacheConfigOfDict]

/-! ### C7: ImageScene.validate -/

/-- An image scene's configuration as `ImageScene.validate` reads it.
The checked-in `ImageScene` stores no audio at all (its constructor and
`from_dict` accept none); the `audio` field carries the claim's input
and is ignored by the validation, which is the point of the claim. -/
structure ImageCfg where
  id : Option String
  duration : Option ℚ
  frames : Option ℕ
  image : Option String
  stretch : Bool
  width : Option ℕ
  height : Option ℕ
  audio : List AudioTrack
deriving Repr, DecidableEq

/-- `ImageScene.validate` (image_scene.py lines 48-67), preceded by the
`BaseScene.validate` id check: requires an id, then exactly one of
`duration`/`frames` - audio is never consulted - then `image`, then the
`stretch`/`width`/`height` constraint. -/
def imageValidate (c : ImageCfg) : Except String Unit :=
  match c.id with
  | none => .error ("Scene of type 'image' is missing a required 'id' field.")
  | some i =>
    if i = "" then
      .error ("Scene of type 'image' is missing a required 'id' field.")
    else if c.duration = none ∧ c.frames = none then
      .error ("Scene '" ++ i ++ "' requires either 'duration' or 'frames'.")
    else if c.duration ≠ none ∧ c.frames ≠ none then
      .error ("Scene '" ++ i ++ "' cannot have both 'duration' and 'frames'.")
    else if c.image = none then
      .error ("Scene '" ++ i ++ "' is missing required field: 'image'.")
    else if ¬ c.stretch ∧ c.width ≠ none ∧ c.height ≠ none then
      .error ("Scene '" ++ i ++
        "': cannot specify both 'width' and 'height' when 'stretch' is false.")
    else .ok ()

/-- C7: the checked-in code at the failing input.  An image scene that
carries an audio track and sets neither `duration` nor `frames` is
rejected by `ImageScene.validate` with the "requires either 'duration'
or 'frames'" error - the audio-implied duration the spec (and the
repository's own tests, tests/scene/test_image_scene.py) promise is
never considered.  The both-set case is also rejected, as the claim
says. -/
theorem image_audio_only_validation :
    imageValidate
        ⟨some "img3", none, none, some "image.png", true, none, none,
          [⟨0, 5 / 2⟩]⟩ =
      .error ("Scene 'img3' requires either 'duration' or 'frames'.")
    ∧ imageValidate
        ⟨some "img5", some 2, some 60, some "image.png", true, none, none,
          []⟩ =
      .error ("Scene 'img5' cannot have both 'duration' and 'frames'.") := by
  constructor <;> rfl

/-! ### C9: duplicate scene ids in VideoSpec.validate -/

/-- A top-level scene as `VideoSpec.validate` sees it: its id (`none`
embeds a missing `id`), its type discriminator for the error message,
and the outcome of the rest of its own `validate` (the subclass checks
beyond the id check), `none` when they pass. -/
structure VScene where
  id : Option String
  typeName : String
  extraErr : Option String
deriving Repr, DecidableEq

/-- `BaseScene.validate`'s id requirement (`if not self.id`, which also
rejects the empty string) followed by the subclass checks. -/
def sceneValidate (s : VScene) : Except String Unit :=
  match s.id with
  | none =>
    .error ("Scene of type '" ++ s.typeName ++
      "' is missing a required 'id' field.")
  | some i =>
    if i = "" then
      .error ("Scene of type '" ++ s.typeName ++
        "' is missing a required 'id' field.")
    else
      match s.extraErr with
      | some m => .error m
      | none => .ok ()

/-- The message `VideoSpec.validate` raises at a duplicate id: the
shared id names both occurrences of the duplicate. -/
def dupMsg (i : String) : String :=
  "Duplicate scene id found: '" ++ i ++ "'. Scene IDs must be unique."

/-- The scene loop of `VideoSpec.validate` (lines 29-38): validate each
scene, then check its id against the ids seen so far, raising `dupMsg`
at the first repeat. -/
def validateScenes : List VScene → List String → Except String Unit
  | [], _ => .ok ()
  | s :: rest, seen =>
    match sceneValidate s with
    | .error m => .error m
    | .ok _ =>
      match s.id with
      | none => .error ("assertion failed: scene.id is not None")
      | some i =>
        if i ∈ seen then .error (dupMsg i)
        else validateScenes rest (i :: seen)

/-- `VideoSpec.validate` (lines 16-38): the settings must validate, the
scene list must be nonempty, and the scene loop must pass.  The settings
check is abstracted to its outcome `settingsErr`. -/
def videoSpecValidate (settingsErr : Option String)
    (scenes : List VScene) : Except String Unit :=
  match settingsErr with
  | some m => .error m
  | none =>
    if scenes.isEmpty then
      .error ("Specification must have at least one scene.")
    else validateScenes scenes []

/-- The ids of a scene list, in order. -/
def idsOf (scenes : List VScene) : List String :=
  scenes.filterMap (fun s => s.id)

theorem sceneValidate_ok_id {s : VScene}
    (h : sceneValidate s = .ok ()) : ∃ i, s.id = some i := by
  unfold sceneValidate at h
  cases hid : s.id with
  | none => simp [hid] at h
  | some i => exact ⟨i, rfl⟩

/-- The scene loop succeeds exactly when the ids are distinct and avoid
the already-seen ones. -/
theorem validateScenes_ok (scenes : List VScene)
    (hOk : ∀ s ∈ scenes, sceneValidate s = .ok ()) :
    ∀ seen, validateScenes scenes seen = .ok () ↔
      ((idsOf scenes).Nodup ∧ ∀ i ∈ idsOf scenes, i ∉ seen) := by
  induction scenes with
  | nil => intro seen; simp [validateScenes, idsOf]
  | cons s rest ih =>
    intro seen
    have hs := hOk s (by simp)
    obtain ⟨i, hi⟩ := sceneValidate_ok_id hs
    have hrest : ∀ t ∈ rest, sceneValidate t = .ok () :=
      fun t ht => hOk t (by simp [ht])
    simp only [validateScenes, hs, hi]
    have hids : idsOf (s :: rest) = i :: idsOf rest := by
      simp [idsOf, hi]
    by_cases hmem : i ∈ seen
    · simp only [if_pos hmem, hids]
      constructor
      · intro h; cases h
      · rintro ⟨-, hforall⟩
        exact absurd hmem (hforall i (by simp))
    · simp only [if_neg hmem, hids]
      rw [ih hrest (i :: seen)]
      simp only [List.nodup_cons, List.mem_cons]
      constructor
      · rintro ⟨hnd, hav⟩
        refine ⟨⟨fun hmem2 => ?_, hnd⟩, ?_⟩
        · exact (hav i hmem2) (by simp)
        · rintro j (rfl | hj)
          · exact hmem
          · intro hjseen
            exact (hav j hj) (by simp [hjseen])
      · rintro ⟨⟨hnotin, hnd⟩, hav⟩
        refine ⟨hnd, fun j hj => ?_⟩
        simp only [List.mem_cons, not_or]
        refine ⟨fun hji => ?_, ?_⟩
        · rw [hji] at hj
          exact hnotin hj
        · exact hav j (by simp [hj])

/-- A raised error of the scene loop is a duplicate-id message whose id
either was already seen or occurs twice in the list. -/
theorem validateScenes_error (scenes : List VScene)
    (hOk : ∀ s ∈ scenes, sceneValidate s = .ok ()) :
    ∀ seen m, validateScenes scenes seen = .error m →
      ∃ dup, m = dupMsg dup ∧ dup ∈ idsOf scenes ∧
        (dup ∈ seen ∨ 2 ≤ (idsOf scenes).count dup) := by
  induction scenes with
  | nil => intro seen m h; simp [validateScenes] at h
  | cons s rest ih =>
    intro seen m h
    have hs := hOk s (by simp)
    obtain ⟨i, hi⟩ := sceneValidate_ok_id hs
    have hrest : ∀ t ∈ rest, sceneValidate t = .ok () :=
      fun t ht => hOk t (by simp [ht])
    have hids : idsOf (s :: rest) = i :: idsOf rest := by
      simp [idsOf, hi]
    simp only [validateScenes, hs, hi] at h
    by_cases hmem : i ∈ seen
    · simp only [if_pos hmem] at h
      refine ⟨i, ?_, ?_, Or.inl hmem⟩
      · cases h; rfl
      · simp [hids]
    · simp only [if_neg hmem] at h
      obtain ⟨dup, hm, hdin, hrec⟩ := ih hrest (i :: seen) m h
      refine ⟨dup, hm, by simp [hids, hdin], ?_⟩
      rcases hrec with hdseen | hcount
      · rcases List.mem_cons.mp hdseen with rfl | hdseen2
        · right
          rw [hids, List.count_cons_self]
          have : 1 ≤ (idsOf rest).count dup := List.count_pos_iff.mpr hdin
          omega
        · exact Or.inl hdseen2
      · right
        rw [hids]
        rcases eq_or_ne i dup with rfl | hne
        · rw [List.count_cons_self]; omega
        · rw [List.count_cons_of_ne (by exact fun hh => hne hh.symm)]
          exact hcount

/-- C9: validating a spec in which two scenes share an id raises a
Validation error whose message contains the shared id - the name of both
occurrences of the duplicate - and validation succeeds exactly when (all
scenes pass their own checks, the settings are valid, the list is
nonempty and) the top-level scene ids are pairwise distinct. -/
theorem duplicate_scene_id_validation (scenes : List VScene)
    (hOk : ∀ s ∈ scenes, sceneValidate s = .ok ()) :
    (videoSpecValidate none scenes = .ok () ↔
      (scenes ≠ [] ∧ (idsOf scenes).Nodup))
    ∧ (scenes ≠ [] → ¬ (idsOf scenes).Nodup →
      ∃ dup, 2 ≤ (idsOf scenes).count dup ∧
        videoSpecValidate none scenes = .error (dupMsg dup)) := by
  constructor
  · unfold videoSpecValidate
    cases hsc : scenes with
    | nil => simp [validateScenes]
    | cons s rest =>
      rw [← hsc]
      have hne : scenes.isEmpty = false := by simp [hsc]
      simp only [hne, Bool.false_eq_true, if_false]
      rw [validateScenes_ok scenes hOk []]
      simp [hsc]
  · intro hne hnd
    have hmain := (validateScenes_ok scenes hOk []).mpr
    have hnotok : validateScenes scenes [] ≠ .ok () := by
      intro hok
      exact hnd ((validateScenes_ok scenes hOk []).mp hok).1
    cases hres : validateScenes scenes [] with
    | ok u =>
      cases u
      exact absurd hres hnotok
    | error m =>
      obtain ⟨dup, hm, hdin, hrec⟩ :=
        validateScenes_error scenes hOk [] m hres
      rcases hrec with hdseen | hcount
      · cases hdseen
      · refine ⟨dup, hcount, ?_⟩
        unfold videoSpecValidate
        have hempty : scenes.isEmpty = false := by
          cases scenes with
          | nil => exact absurd rfl hne
          | cons a b => rfl
        simp only [hempty, Bool.false_eq_true, if_false]
        rw [hres, hm]

/-- Witness for C9: two image scenes both with id `duplicate` make
validation fail with the duplicate-id message, which names the id both
occurrences share. -/
theorem duplicate_scene_id_validation_witness :
    ∃ dup, 2 ≤ (idsOf [⟨some "duplicate", "image", none⟩,
        ⟨some "duplicate", "image", none⟩]).count dup ∧
      videoSpecValidate none
          [⟨some "duplicate", "image", none⟩,
           ⟨some "duplicate", "image", none⟩] =
        .error (dupMsg dup) :=
  (duplicate_scene_id_validation
      [⟨some "duplicate", "image", none⟩, ⟨some "duplicate", "image", none⟩]
      (by intro s hs
          rcases List.mem_cons.mp hs with rfl | hs2
          · rfl
          · rcases List.mem_cons.mp hs2 with rfl | hs3
            · rfl
            · cases hs3)).2 (by decide) (by decide)

end Sceneweaver
